import Mathlib

/-!
Shallow embedding of the stock-tracker core (src/src/types/index.ts):
the position aggregator (calculatePositions), the portfolio totals
reducer (calculateTotalProfitLoss) and the historical analysis
projector (analyzeTradeHistory).

Modelling conventions: JavaScript numbers are modelled as exact
rationals; ISO date strings are modelled by their numeric timestamps
(the value of new Date(s).getTime()); a JavaScript Map is modelled by
an insertion-ordered association list, with get returning the first
binding and set updating it in place (or appending a fresh binding);
number-or-null fields become Option; a missing optional field becomes
Option as well.  The JavaScript sort used by the source is a stable
sort by ascending timestamp, modelled by insertion sort, which computes
the same (unique) stable ordering.
-/

inductive TradeType where
  | buy
  | sell
  deriving DecidableEq, Repr

/-- A trade record (interface Trade). -/
structure Trade where
  id : String
  stockCode : String
  stockName : String
  type : TradeType
  price : ℚ
  quantity : ℚ
  date : ℤ
  commission : Option ℚ
  tags : Option (List String)
  deriving DecidableEq, Repr

/-- First binding of a key in an association list (Map.prototype.get). -/
def mapGet {A : Type} : List (String × A) → String → Option A
  | [], _ => none
  | p :: rest, k => if p.1 = k then some p.2 else mapGet rest k

/-- Update the first binding of a key in place, or append it
(Map.prototype.set, preserving insertion order). -/
def mapSet {A : Type} : List (String × A) → String → A → List (String × A)
  | [], k, v => [(k, v)]
  | p :: rest, k, v => if p.1 = k then (k, v) :: rest else p :: mapSet rest k v

/-- Accumulator value held in positionMap inside calculatePositions. -/
structure PosAcc where
  stockCode : String
  stockName : String
  totalQuantity : ℚ
  totalCost : ℚ
  deriving DecidableEq, Repr

/-- Comparator used by both sorts in the source: ascending timestamp. -/
def tradeLE (a b : Trade) : Prop := a.date ≤ b.date

instance : DecidableRel tradeLE := fun a b => inferInstanceAs (Decidable (a.date ≤ b.date))

/-- Stable sort of the trade list by ascending timestamp, as performed by
the spread-copy-and-sort at the head of both core functions. -/
def sortTrades (trades : List Trade) : List Trade :=
  List.insertionSort tradeLE trades

/-- Body of the main loop of calculatePositions: fold one trade into the
per-instrument position map. -/
def applyTrade (positionMap : List (String × PosAcc)) (trade : Trade) :
    List (String × PosAcc) :=
  let existing := (mapGet positionMap trade.stockCode).getD
    { stockCode := trade.stockCode, stockName := trade.stockName
      totalQuantity := 0, totalCost := 0 }
  let updated :=
    if trade.type = TradeType.buy then
      { existing with
          totalCost := existing.totalCost + trade.price * trade.quantity
            + trade.commission.getD 0
          totalQuantity := existing.totalQuantity + trade.quantity }
    else
      if 0 < existing.totalQuantity then
        let costPerShare := existing.totalCost / existing.totalQuantity
        let soldQuantity := min trade.quantity existing.totalQuantity
        { existing with
            totalCost := existing.totalCost - costPerShare * soldQuantity
            totalQuantity := existing.totalQuantity - soldQuantity }
      else existing
  let withName :=
    { updated with
        stockName := if trade.stockName = "" then updated.stockName else trade.stockName }
  mapSet positionMap trade.stockCode withName

/-- Value-level update performed by applyTrade on the accumulator of the
trade's instrument; applyTrade is definitionally mapSet of this value at
the trade's stockCode (see applyTrade_eq below). -/
def applyVal (existing : PosAcc) (trade : Trade) : PosAcc :=
  let updated :=
    if trade.type = TradeType.buy then
      { existing with
          totalCost := existing.totalCost + trade.price * trade.quantity
            + trade.commission.getD 0
          totalQuantity := existing.totalQuantity + trade.quantity }
    else
      if 0 < existing.totalQuantity then
        let costPerShare := existing.totalCost / existing.totalQuantity
        let soldQuantity := min trade.quantity existing.totalQuantity
        { existing with
            totalCost := existing.totalCost - costPerShare * soldQuantity
            totalQuantity := existing.totalQuantity - soldQuantity }
      else existing
  { updated with
      stockName := if trade.stockName = "" then updated.stockName else trade.stockName }

/-- A derived position (interface Position). -/
structure Position where
  stockCode : String
  stockName : String
  totalQuantity : ℚ
  totalCost : ℚ
  averageCost : ℚ
  currentPrice : Option ℚ
  marketValue : Option ℚ
  profitLoss : Option ℚ
  profitLossPercent : Option ℚ
  deriving DecidableEq, Repr

/-- Conversion of one positionMap entry into a Position, as done by the
emission loop of calculatePositions. -/
def mkPosition (currentPrices : String → Option ℚ) (entry : String × PosAcc) : Position :=
  let stockCode := entry.1
  let data := entry.2
  let currentPrice := currentPrices stockCode
  let averageCost := if 0 < data.totalQuantity then data.totalCost / data.totalQuantity else 0
  match currentPrice with
  | none =>
      { stockCode := stockCode, stockName := data.stockName
        totalQuantity := data.totalQuantity, totalCost := data.totalCost
        averageCost := averageCost, currentPrice := none
        marketValue := none, profitLoss := none, profitLossPercent := none }
  | some cp =>
      let marketValue := cp * data.totalQuantity
      let profitLoss := marketValue - data.totalCost
      let profitLossPercent :=
        if 0 < data.totalCost then profitLoss / data.totalCost * 100 else 0
      { stockCode := stockCode, stockName := data.stockName
        totalQuantity := data.totalQuantity, totalCost := data.totalCost
        averageCost := averageCost, currentPrice := some cp
        marketValue := some marketValue, profitLoss := some profitLoss
        profitLossPercent := some profitLossPercent }

/-- The position aggregator calculatePositions: sort the trade list by
timestamp, fold it into the per-instrument map, then emit one Position
per entry with positive remaining quantity. -/
def calculatePositions (trades : List Trade) (currentPrices : String → Option ℚ) :
    List Position :=
  let positionMap := (sortTrades trades).foldl applyTrade []
  (positionMap.filter fun e => decide (0 < e.2.totalQuantity)).map (mkPosition currentPrices)

/-- Return record of calculateTotalProfitLoss. -/
structure Totals where
  totalCost : ℚ
  totalMarketValue : Option ℚ
  totalProfitLoss : Option ℚ
  totalProfitLossPercent : Option ℚ
  deriving DecidableEq, Repr

/-- Body of the loop of calculateTotalProfitLoss: accumulate
(totalCost, totalMarketValue, hasAnyPrice). -/
def totalsStep (acc : ℚ × ℚ × Bool) (pos : Position) : ℚ × ℚ × Bool :=
  match pos.marketValue with
  | some mv => (acc.1 + pos.totalCost, acc.2.1 + mv, true)
  | none => (acc.1 + pos.totalCost, acc.2.1, acc.2.2)

/-- The portfolio totals reducer calculateTotalProfitLoss. -/
def calculateTotalProfitLoss (positions : List Position) : Totals :=
  let acc := positions.foldl totalsStep (0, 0, false)
  if positions.length = 0 then
    { totalCost := 0, totalMarketValue := some 0, totalProfitLoss := some 0
      totalProfitLossPercent := some 0 }
  else
    let totalProfitLoss : Option ℚ := if acc.2.2 then some (acc.2.1 - acc.1) else none
    let totalProfitLossPercent : Option ℚ :=
      if acc.2.2 && decide (0 < acc.1) then some ((acc.2.1 - acc.1) / acc.1 * 100) else none
    { totalCost := acc.1
      totalMarketValue := if acc.2.2 then some acc.2.1 else none
      totalProfitLoss := totalProfitLoss
      totalProfitLossPercent := totalProfitLossPercent }

/-- One element of the time series produced by analyzeTradeHistory
(interface AnalysisPoint).  The source stores the date-only prefix of
the ISO string in the date field; with dates modelled as timestamps the
trade timestamp is carried instead (no claim inspects this field). -/
structure AnalysisPoint where
  date : ℤ
  cost : ℚ
  profit : ℚ
  cumulativeCost : ℚ
  deriving DecidableEq, Repr

/-- Per-instrument accumulator of analyzeTradeHistory (stockInventory values). -/
structure Inventory where
  quantity : ℚ
  totalCost : ℚ
  deriving DecidableEq, Repr

/-- Loop state of analyzeTradeHistory: emitted points, the global running
cumulative cost, and the per-instrument inventory map. -/
structure AnalyzeState where
  points : List AnalysisPoint
  cumulativeCost : ℚ
  inventory : List (String × Inventory)
  deriving DecidableEq, Repr

/-- Body of the loop of analyzeTradeHistory: fold one trade into the state
and emit one AnalysisPoint. -/
def analyzeStep (s : AnalyzeState) (trade : Trade) : AnalyzeState :=
  let tradeAmount := trade.price * trade.quantity
  let inv := (mapGet s.inventory trade.stockCode).getD { quantity := 0, totalCost := 0 }
  if trade.type = TradeType.buy then
    let costBasis := tradeAmount + trade.commission.getD 0
    let newInv : Inventory :=
      { quantity := inv.quantity + trade.quantity, totalCost := inv.totalCost + costBasis }
    let cc := s.cumulativeCost + costBasis
    let point : AnalysisPoint :=
      { date := trade.date, cost := tradeAmount, profit := 0, cumulativeCost := cc }
    { points := s.points ++ [point]
      cumulativeCost := cc
      inventory := mapSet s.inventory trade.stockCode newInv }
  else
    if 0 < inv.quantity then
      let avgCost := inv.totalCost / inv.quantity
      let soldQuantity := min trade.quantity inv.quantity
      let costOfSold := avgCost * soldQuantity
      let tradeProfit := tradeAmount - trade.commission.getD 0 - costOfSold
      let newInv : Inventory :=
        { quantity := inv.quantity - soldQuantity, totalCost := inv.totalCost - costOfSold }
      let cc := s.cumulativeCost - costOfSold
      let point : AnalysisPoint :=
        { date := trade.date, cost := tradeAmount, profit := tradeProfit, cumulativeCost := cc }
      { points := s.points ++ [point]
        cumulativeCost := cc
        inventory := mapSet s.inventory trade.stockCode newInv }
    else
      let point : AnalysisPoint :=
        { date := trade.date, cost := tradeAmount, profit := 0
          cumulativeCost := s.cumulativeCost }
      { points := s.points ++ [point]
        cumulativeCost := s.cumulativeCost
        inventory := mapSet s.inventory trade.stockCode inv }

/-- The historical analysis projector analyzeTradeHistory: sort by
timestamp, fold, return the emitted points. -/
def analyzeTradeHistory (trades : List Trade) : List AnalysisPoint :=
  ((sortTrades trades).foldl analyzeStep { points := [], cumulativeCost := 0, inventory := [] }).points

/-- Equivalence of positionMap entries up to the display-only stockName
field: same key, same remaining quantity, same remaining cost. -/
def entryEquiv (p q : String × PosAcc) : Prop :=
  p.1 = q.1 ∧ p.2.totalQuantity = q.2.totalQuantity ∧ p.2.totalCost = q.2.totalCost

/-- Equivalence of whole position maps up to stockName fields. -/
def MapEquiv (m1 m2 : List (String × PosAcc)) : Prop := List.Forall₂ entryEquiv m1 m2

/-- Alignment of a positionMap entry of calculatePositions with a
stockInventory entry of analyzeTradeHistory: same key, same quantity,
same cost. -/
def posInvAligned (p : String × PosAcc) (q : String × Inventory) : Prop :=
  p.1 = q.1 ∧ p.2.totalQuantity = q.2.quantity ∧ p.2.totalCost = q.2.totalCost

/-- Alignment of the two per-instrument accumulator maps. -/
def AggProjAligned (m : List (String × PosAcc)) (inv : List (String × Inventory)) : Prop :=
  List.Forall₂ posInvAligned m inv

/-! Helper lemmas about the association-list Map model. -/

theorem mapGet_mapSet_self {A : Type} (m : List (String × A)) (k : String) (v : A) :
    mapGet (mapSet m k v) k = some v := by
  induction m with
  | nil => simp [mapGet, mapSet]
  | cons p rest ih =>
    by_cases h : p.1 = k
    · simp [mapGet, mapSet, h]
    · simp [mapGet, mapSet, h, ih]

theorem mapSet_mapSet {A : Type} (m : List (String × A)) (k : String) (v w : A) :
    mapSet (mapSet m k v) k w = mapSet m k w := by
  induction m with
  | nil => simp [mapSet]
  | cons p rest ih =>
    by_cases h : p.1 = k
    · simp [mapSet, h]
    · simp [mapSet, h, ih]

theorem mem_mapSet {A : Type} (m : List (String × A)) (k : String) (v : A)
    (e : String × A) (he : e ∈ mapSet m k v) : e = (k, v) ∨ e ∈ m := by
  induction m with
  | nil => simpa [mapSet] using he
  | cons p rest ih =>
    by_cases h : p.1 = k
    · simp only [mapSet, h, if_pos rfl] at he
      rcases List.mem_cons.mp he with h1 | h1
      · exact Or.inl h1
      · exact Or.inr (List.mem_cons_of_mem _ h1)
    · simp only [mapSet, if_neg h] at he
      rcases List.mem_cons.mp he with h1 | h1
      · exact Or.inr (h1 ▸ List.mem_cons_self _ _)
      · rcases ih h1 with h2 | h2
        · exact Or.inl h2
        · exact Or.inr (List.mem_cons_of_mem _ h2)

theorem mapGet_eq_some_mem {A : Type} (m : List (String × A)) (k : String) (v : A)
    (h : mapGet m k = some v) : ∃ p ∈ m, p.2 = v := by
  induction m with
  | nil => simp [mapGet] at h
  | cons p rest ih =>
    by_cases hk : p.1 = k
    · simp only [mapGet] at h
      rw [if_pos hk] at h
      exact ⟨p, List.mem_cons_self _ _, Option.some.inj h⟩
    · simp only [mapGet, if_neg hk] at h
      rcases ih h with ⟨q, hq, hv⟩
      exact ⟨q, List.mem_cons_of_mem _ hq, hv⟩

/-! Projection facts about mkPosition: the identifying and cost fields of
an emitted Position are copied from the positionMap entry. -/

theorem mkPosition_proj (prices : String → Option ℚ) (e : String × PosAcc) :
    (mkPosition prices e).stockCode = e.1 ∧
    (mkPosition prices e).totalQuantity = e.2.totalQuantity ∧
    (mkPosition prices e).totalCost = e.2.totalCost ∧
    (mkPosition prices e).averageCost =
      (if 0 < e.2.totalQuantity then e.2.totalCost / e.2.totalQuantity else 0) ∧
    (mkPosition prices e).marketValue = (prices e.1).map (fun cp => cp * e.2.totalQuantity) := by
  cases h : prices e.1 <;> simp [mkPosition, h]

/-! Characterization of the totals fold of calculateTotalProfitLoss. -/

theorem totalsFold_spec (positions : List Position) (tc tmv : ℚ) (hap : Bool) :
    positions.foldl totalsStep (tc, tmv, hap) =
      (tc + (positions.map Position.totalCost).sum,
       tmv + (positions.filterMap Position.marketValue).sum,
       hap || positions.any fun p => p.marketValue.isSome) := by
  induction positions generalizing tc tmv hap with
  | nil => simp
  | cons p rest ih =>
    cases hmv : p.marketValue with
    | none =>
      simp only [List.foldl_cons, totalsStep, hmv, List.map_cons, List.sum_cons,
        List.filterMap_cons, List.any_cons, ih, Option.isSome_none, Prod.mk.injEq]
      refine ⟨by ring_nf, by ring_nf, by simp⟩
    | some mv =>
      simp only [List.foldl_cons, totalsStep, hmv, List.map_cons, List.sum_cons,
        List.filterMap_cons, List.any_cons, ih, Option.isSome_some, Prod.mk.injEq]
      refine ⟨by ring_nf, by ring_nf, by simp⟩

/-- C1 counterexample: on the empty position list calculateTotalProfitLoss
returns zeros (some 0), not "unknown" (none), for totalMarketValue,
totalProfitLoss and totalProfitLossPercent. -/
theorem C1_empty_totals_counterexample :
    (calculateTotalProfitLoss []).totalMarketValue ≠ none ∧
    (calculateTotalProfitLoss []).totalProfitLoss ≠ none ∧
    (calculateTotalProfitLoss []).totalProfitLossPercent ≠ none := by
  refine ⟨?_, ?_, ?_⟩ <;> simp [calculateTotalProfitLoss]

/-- C1 (amended): for a non-empty position list in which no position has a
known marketValue, calculateTotalProfitLoss reports totalMarketValue,
totalProfitLoss and totalProfitLossPercent all as "unknown" (none) and
totalCost as the sum of the position costs; the empty trade sequence
yields an empty position list, on which calculateTotalProfitLoss
returns totalCost 0 together with zeros (not "unknown") for the other
three fields. -/
theorem C1_unknown_propagation :
    ∀ (positions : List Position) (prices : String → Option ℚ),
      (positions ≠ [] → (∀ p ∈ positions, p.marketValue = none) →
        (calculateTotalProfitLoss positions).totalCost
            = (positions.map Position.totalCost).sum ∧
        (calculateTotalProfitLoss positions).totalMarketValue = none ∧
        (calculateTotalProfitLoss positions).totalProfitLoss = none ∧
        (calculateTotalProfitLoss positions).totalProfitLossPercent = none) ∧
      calculatePositions [] prices = [] ∧
      calculateTotalProfitLoss [] =
        { totalCost := 0, totalMarketValue := some 0, totalProfitLoss := some 0
          totalProfitLossPercent := some 0 } := by
  intro positions prices
  refine ⟨fun hne hall => ?_, ?_, ?_⟩
  · have hlen : positions.length ≠ 0 := by
      simpa [List.length_eq_zero] using hne
    have hany : (positions.any fun p => p.marketValue.isSome) = false := by
      simp only [List.any_eq_false]
      intro p hp
      simp [hall p hp]
    simp [calculateTotalProfitLoss, totalsFold_spec, hlen, hany]
  · simp [calculatePositions, sortTrades, List.insertionSort]
  · simp [calculateTotalProfitLoss]

/-- C1 witness: instantiation of the amended statement on one position with
unknown market value. -/
theorem C1_unknown_propagation_witness :
    (calculateTotalProfitLoss
      [ { stockCode := "B", stockName := "B", totalQuantity := 5, totalCost := 500
          averageCost := 100, currentPrice := none, marketValue := none
          profitLoss := none, profitLossPercent := none } ]).totalMarketValue = none := by
  refine ((C1_unknown_propagation
    [ { stockCode := "B", stockName := "B", totalQuantity := 5, totalCost := 500
        averageCost := 100, currentPrice := none, marketValue := none
        profitLoss := none, profitLossPercent := none } ] (fun _ => none)).1
    (by simp) (by simp)).2.1

/-- C2 counterexample: for the positions of the claim (known market value
1000 with cost 800, unknown price with cost 500) the code returns
totalProfitLoss = totalMarketValue − totalCost = −300, not 200. -/
theorem C2_totals_example_counterexample :
    (calculateTotalProfitLoss
      [ { stockCode := "A", stockName := "A", totalQuantity := 10, totalCost := 800
          averageCost := 80, currentPrice := some 100, marketValue := some 1000
          profitLoss := some 200, profitLossPercent := some 25 }
      , { stockCode := "B", stockName := "B", totalQuantity := 5, totalCost := 500
          averageCost := 100, currentPrice := none, marketValue := none
          profitLoss := none, profitLossPercent := none } ]).totalProfitLoss
      ≠ some 200 := by
  norm_num [calculateTotalProfitLoss, totalsStep]

/-- C2 (amended): for any two positions, the first with known market value
1000 and totalCost 800, the second with unknown price and totalCost 500,
calculateTotalProfitLoss returns totalCost = 1300 and
totalMarketValue = 1000 (only known market values are summed), and
totalProfitLoss = totalMarketValue − totalCost = −300 (not 200). -/
theorem C2_totals_example :
    ∀ (p1 p2 : Position), p1.totalCost = 800 → p1.marketValue = some 1000 →
      p2.totalCost = 500 → p2.marketValue = none →
      (calculateTotalProfitLoss [p1, p2]).totalCost = 1300 ∧
      (calculateTotalProfitLoss [p1, p2]).totalMarketValue = some 1000 ∧
      (calculateTotalProfitLoss [p1, p2]).totalProfitLoss = some (-300) := by
  intro p1 p2 h1 h2 h3 h4
  norm_num [calculateTotalProfitLoss, totalsStep, h1, h2, h3, h4]

/-- C2 witness: instantiation of the amended statement on concrete
positions. -/
theorem C2_totals_example_witness :
    (calculateTotalProfitLoss
      [ { stockCode := "A", stockName := "A", totalQuantity := 10, totalCost := 800
          averageCost := 80, currentPrice := some 100, marketValue := some 1000
          profitLoss := some 200, profitLossPercent := some 25 }
      , { stockCode := "B", stockName := "B", totalQuantity := 5, totalCost := 500
          averageCost := 100, currentPrice := none, marketValue := none
          profitLoss := none, profitLossPercent := none } ]).totalProfitLoss
      = some (-300) :=
  (C2_totals_example _ _ rfl rfl rfl rfl).2.2

/-- C3: buying 100 units of "X" at price 10 with commission 5 and then
selling 50 units at price 12 with commission 2 yields exactly one
position, with totalQuantity 50, totalCost 502.5 and averageCost 10.05;
the sell commission does not change the remaining cost basis. -/
theorem C3_buy_sell_example :
    (calculatePositions
      [ { id := "1", stockCode := "X", stockName := "X", type := TradeType.buy
          price := 10, quantity := 100, date := 0, commission := some 5, tags := none }
      , { id := "2", stockCode := "X", stockName := "X", type := TradeType.sell
          price := 12, quantity := 50, date := 1, commission := some 2, tags := none } ]
      (fun _ => none)).map (fun p => (p.totalQuantity, p.totalCost, p.averageCost))
      = [(50, 1005 / 2, 201 / 20)] := by
  norm_num +decide [calculatePositions, sortTrades, List.insertionSort, List.orderedInsert,
    tradeLE, applyTrade, mapGet, mapSet, mkPosition, min_def]

/-- C4: every position emitted by calculatePositions has strictly positive
totalQuantity (fully-closed entries are dropped), and processing a sell
never drives any accumulator quantity of the position map below zero:
starting from a map with non-negative quantities, all quantities remain
non-negative (the sold quantity is capped at the held quantity, and a
sell against an empty accumulator changes nothing). -/
theorem C4_position_quantity_positive :
    ∀ (trades : List Trade) (prices : String → Option ℚ),
      (∀ p ∈ calculatePositions trades prices, 0 < p.totalQuantity) ∧
      (∀ (m : List (String × PosAcc)) (t : Trade), t.type = TradeType.sell →
        (∀ e ∈ m, 0 ≤ e.2.totalQuantity) →
        ∀ e ∈ applyTrade m t, 0 ≤ e.2.totalQuantity) := by
  intro trades prices
  constructor
  · intro p hp
    simp only [calculatePositions, List.mem_map] at hp
    rcases hp with ⟨e, he, rfl⟩
    have hq : 0 < e.2.totalQuantity := by
      simpa using (List.mem_filter.mp he).2
    rw [(mkPosition_proj prices e).2.1]
    exact hq
  · intro m t htype hm e he
    have hex : 0 ≤ ((mapGet m t.stockCode).getD
        { stockCode := t.stockCode, stockName := t.stockName
          totalQuantity := 0, totalCost := 0 }).totalQuantity := by
      cases hg : mapGet m t.stockCode with
      | none => simp
      | some v =>
        rcases mapGet_eq_some_mem m t.stockCode v hg with ⟨q, hq, hv⟩
        simpa [hv] using hm q hq
    simp only [applyTrade, htype] at he
    rcases mem_mapSet _ _ _ e he with h1 | h1
    · subst h1
      by_cases hq : 0 < ((mapGet m t.stockCode).getD
          { stockCode := t.stockCode, stockName := t.stockName
            totalQuantity := 0, totalCost := 0 }).totalQuantity
      · simp [hq, min_le_right]
      · simpa [hq] using hex
    · exact hm e h1

/-- C4 witness: a concrete over-sell (sell 10 against a held quantity of 5)
leaves the accumulator quantity non-negative. -/
theorem C4_position_quantity_positive_witness :
    ∀ e ∈ applyTrade
      [("X", ({ stockCode := "X", stockName := "X"
                totalQuantity := 5, totalCost := 50 } : PosAcc))]
      { id := "1", stockCode := "X", stockName := "X", type := TradeType.sell
        price := 1, quantity := 10, date := 0, commission := none, tags := none },
      0 ≤ e.2.totalQuantity := by
  refine (C4_position_quantity_positive [] (fun _ => none)).2
    [("X", ({ stockCode := "X", stockName := "X"
              totalQuantity := 5, totalCost := 50 } : PosAcc))]
    { id := "1", stockCode := "X", stockName := "X", type := TradeType.sell
      price := 1, quantity := 10, date := 0, commission := none, tags := none }
    rfl ?_
  intro e he
  simp only [List.mem_singleton] at he
  subst he
  norm_num

/-! The points emitted by one analyzeStep: exactly one point is appended,
its cost field is the gross trade amount, and its cumulativeCost field is
the updated global cumulative cost. -/

theorem analyzeStep_points (s : AnalyzeState) (t : Trade) :
    ∃ pt : AnalysisPoint, (analyzeStep s t).points = s.points ++ [pt] ∧
      pt.cost = t.price * t.quantity ∧
      pt.cumulativeCost = (analyzeStep s t).cumulativeCost := by
  simp only [analyzeStep]
  by_cases hb : t.type = TradeType.buy
  · rw [if_pos hb]
    exact ⟨_, rfl, rfl, rfl⟩
  · rw [if_neg hb]
    by_cases hq : 0 < ((mapGet s.inventory t.stockCode).getD
        { quantity := 0, totalCost := 0 }).quantity
    · rw [if_pos hq]
      exact ⟨_, rfl, rfl, rfl⟩
    · rw [if_neg hq]
      exact ⟨_, rfl, rfl, rfl⟩

theorem analyzeFold_cost_sum (L : List Trade) :
    ∀ s : AnalyzeState,
      (((L.foldl analyzeStep s).points).map AnalysisPoint.cost).sum
        = ((s.points).map AnalysisPoint.cost).sum
          + (L.map fun t => t.price * t.quantity).sum := by
  induction L with
  | nil => intro s; simp
  | cons t rest ih =>
    intro s
    rw [List.foldl_cons, ih]
    rcases analyzeStep_points s t with ⟨pt, hp, hc, _⟩
    rw [hp]
    simp [hc]
    ring

/-- C7: the sum of the cost fields of all points returned by
analyzeTradeHistory equals the sum of price times quantity over the
input trades, and this sum is invariant under permutation of the
input sequence. -/
theorem C7_cost_sum_invariant :
    ∀ (l1 l2 : List Trade), l1.Perm l2 →
      ((analyzeTradeHistory l1).map AnalysisPoint.cost).sum
        = (l1.map fun t => t.price * t.quantity).sum ∧
      ((analyzeTradeHistory l2).map AnalysisPoint.cost).sum
        = ((analyzeTradeHistory l1).map AnalysisPoint.cost).sum := by
  have key : ∀ l : List Trade,
      ((analyzeTradeHistory l).map AnalysisPoint.cost).sum
        = (l.map fun t => t.price * t.quantity).sum := by
    intro l
    unfold analyzeTradeHistory
    rw [analyzeFold_cost_sum]
    simp only [List.map_nil, List.sum_nil, zero_add, sortTrades]
    exact ((List.perm_insertionSort tradeLE l).map _).sum_eq
  intro l1 l2 hperm
  refine ⟨key l1, ?_⟩
  rw [key l1, key l2]
  exact (hperm.symm.map _).sum_eq

/-- C7 witness: instantiation on a two-trade sequence and its swap. -/
theorem C7_cost_sum_invariant_witness :
    ((analyzeTradeHistory
      [ { id := "1", stockCode := "X", stockName := "X", type := TradeType.buy
          price := 10, quantity := 100, date := 0, commission := some 5, tags := none }
      , { id := "2", stockCode := "Y", stockName := "Y", type := TradeType.buy
          price := 3, quantity := 7, date := 1, commission := none, tags := none } ]).map
        AnalysisPoint.cost).sum
      = (([ { id := "1", stockCode := "X", stockName := "X", type := TradeType.buy
              price := 10, quantity := 100, date := 0, commission := some 5, tags := none }
          , { id := "2", stockCode := "Y", stockName := "Y", type := TradeType.buy
              price := 3, quantity := 7, date := 1, commission := none, tags := none } ]
          : List Trade).map
          fun t => t.price * t.quantity).sum :=
  (C7_cost_sum_invariant _
    [ { id := "2", stockCode := "Y", stockName := "Y", type := TradeType.buy
        price := 3, quantity := 7, date := 1, commission := none, tags := none }
    , { id := "1", stockCode := "X", stockName := "X", type := TradeType.buy
        price := 10, quantity := 100, date := 0, commission := some 5, tags := none } ]
    (List.Perm.swap _ _ _)).1

/-- C5: when analyzeTradeHistory processes a sell against an instrument
accumulator holding quantity > 0, the emitted point carries realized
profit price*quantity − commission − (cost/quantity)*min(trade.quantity,
quantity), and both the instrument accumulator's cost and the global
cumulativeCost decrease by exactly that cost-of-sold amount; a sell
against an empty (or absent) accumulator emits realized profit 0 and
removes no cost. -/
theorem C5_sell_step_realized_profit :
    ∀ (s : AnalyzeState) (t : Trade), t.type = TradeType.sell →
      (∀ inv : Inventory, mapGet s.inventory t.stockCode = some inv → 0 < inv.quantity →
        (analyzeStep s t).points = s.points ++
          [{ date := t.date, cost := t.price * t.quantity
             profit := t.price * t.quantity - t.commission.getD 0
               - inv.totalCost / inv.quantity * min t.quantity inv.quantity
             cumulativeCost := s.cumulativeCost
               - inv.totalCost / inv.quantity * min t.quantity inv.quantity }] ∧
        (analyzeStep s t).cumulativeCost = s.cumulativeCost
          - inv.totalCost / inv.quantity * min t.quantity inv.quantity ∧
        mapGet (analyzeStep s t).inventory t.stockCode = some
          { quantity := inv.quantity - min t.quantity inv.quantity
            totalCost := inv.totalCost
              - inv.totalCost / inv.quantity * min t.quantity inv.quantity }) ∧
      (∀ inv : Inventory, mapGet s.inventory t.stockCode = some inv → inv.quantity ≤ 0 →
        (analyzeStep s t).points = s.points ++
          [{ date := t.date, cost := t.price * t.quantity, profit := 0
             cumulativeCost := s.cumulativeCost }] ∧
        (analyzeStep s t).cumulativeCost = s.cumulativeCost ∧
        mapGet (analyzeStep s t).inventory t.stockCode = some inv) ∧
      (mapGet s.inventory t.stockCode = none →
        (analyzeStep s t).points = s.points ++
          [{ date := t.date, cost := t.price * t.quantity, profit := 0
             cumulativeCost := s.cumulativeCost }] ∧
        (analyzeStep s t).cumulativeCost = s.cumulativeCost) := by
  intro s t htype
  have hnb : ¬ t.type = TradeType.buy := by simp [htype]
  refine ⟨?_, ?_, ?_⟩
  · intro inv hg hq
    simp only [analyzeStep, hg, Option.getD_some, if_neg hnb, if_pos hq]
    refine ⟨by simp, by simp, ?_⟩
    exact mapGet_mapSet_self _ _ _
  · intro inv hg hq
    have hq' : ¬ 0 < inv.quantity := not_lt.mpr hq
    simp only [analyzeStep, hg, Option.getD_some, if_neg hnb, if_neg hq']
    refine ⟨by simp, by simp, ?_⟩
    exact mapGet_mapSet_self _ _ _
  · intro hg
    have hq' : ¬ (0:ℚ) < (0:ℚ) := lt_irrefl 0
    simp only [analyzeStep, hg, Option.getD_none, if_neg hnb]
    rw [if_neg hq']
    exact ⟨rfl, rfl⟩

/-- C5 witness: selling 4 of 10 held units with cost basis 100 (average
cost 10) at price 12 with commission 1 removes exactly 40 from the
running cumulative cost. -/
theorem C5_sell_step_realized_profit_witness :
    (analyzeStep
      { points := [], cumulativeCost := 20, inventory := [("X", { quantity := 10, totalCost := 100 })] }
      { id := "1", stockCode := "X", stockName := "X", type := TradeType.sell
        price := 12, quantity := 4, date := 0, commission := some 1, tags := none }).cumulativeCost
      = -20 := by
  have h := ((C5_sell_step_realized_profit
    { points := [], cumulativeCost := 20
      inventory := [("X", { quantity := 10, totalCost := 100 })] }
    { id := "1", stockCode := "X", stockName := "X", type := TradeType.sell
      price := 12, quantity := 4, date := 0, commission := some 1, tags := none }
    rfl).1 { quantity := 10, totalCost := 100 } (by simp [mapGet]) (by norm_num)).2.1
  rw [h]
  norm_num [min_def]

/-! The buy-only single-instrument fold of calculatePositions keeps a
single positionMap entry and accumulates the exact quantity and cost
sums. -/

theorem buyFold_singleton (code : String) :
    ∀ (L : List Trade) (acc : PosAcc),
      (∀ t ∈ L, t.type = TradeType.buy ∧ t.stockCode = code) →
      ∃ nm : String, L.foldl applyTrade [(code, acc)] =
        [(code, { stockCode := acc.stockCode, stockName := nm
                  totalQuantity := acc.totalQuantity + (L.map Trade.quantity).sum
                  totalCost := acc.totalCost
                    + (L.map fun t => t.price * t.quantity + t.commission.getD 0).sum })] := by
  intro L
  induction L with
  | nil =>
    intro acc h
    exact ⟨acc.stockName, by simp⟩
  | cons t rest ih =>
    intro acc h
    obtain ⟨hbuy, hcode⟩ := h t (List.mem_cons_self _ _)
    have hrest : ∀ u ∈ rest, u.type = TradeType.buy ∧ u.stockCode = code :=
      fun u hu => h u (List.mem_cons_of_mem _ hu)
    obtain ⟨nm, hnm⟩ := ih
      { stockCode := acc.stockCode
        stockName := if t.stockName = "" then acc.stockName else t.stockName
        totalQuantity := acc.totalQuantity + t.quantity
        totalCost := acc.totalCost + t.price * t.quantity + t.commission.getD 0 } hrest
    refine ⟨nm, ?_⟩
    have happ : applyTrade [(code, acc)] t =
        [(code, { stockCode := acc.stockCode
                  stockName := if t.stockName = "" then acc.stockName else t.stockName
                  totalQuantity := acc.totalQuantity + t.quantity
                  totalCost := acc.totalCost + t.price * t.quantity + t.commission.getD 0 })] := by
      simp [applyTrade, hcode, hbuy, mapGet, mapSet]
    rw [List.foldl_cons, happ, hnm]
    have hfields : ∀ (s n : String) (q1 c1 q2 c2 : ℚ), q1 = q2 → c1 = c2 →
        ([(code, PosAcc.mk s n q1 c1)] : List (String × PosAcc))
          = [(code, PosAcc.mk s n q2 c2)] := by
      intro s n q1 c1 q2 c2 hq hc
      rw [hq, hc]
    refine hfields _ _ _ _ _ _ ?_ ?_
    · show acc.totalQuantity + t.quantity + (List.map Trade.quantity rest).sum
        = acc.totalQuantity + (List.map Trade.quantity (t :: rest)).sum
      simp only [List.map_cons, List.sum_cons]
      ring
    · show acc.totalCost + t.price * t.quantity + t.commission.getD 0
          + (List.map (fun u => u.price * u.quantity + u.commission.getD 0) rest).sum
        = acc.totalCost
          + (List.map (fun u => u.price * u.quantity + u.commission.getD 0) (t :: rest)).sum
      simp only [List.map_cons, List.sum_cons]
      ring

/-- C6: for every non-empty buy-only trade sequence on a single instrument
with positive prices and quantities, calculatePositions returns exactly
one position, whose averageCost is (sum of price*quantity + sum of
commissions, a missing commission counting as 0) divided by the sum of
quantities. -/
theorem C6_buy_only_average_cost :
    ∀ (l : List Trade) (prices : String → Option ℚ) (code : String),
      l ≠ [] →
      (∀ t ∈ l, t.type = TradeType.buy ∧ t.stockCode = code
        ∧ 0 < t.price ∧ 0 < t.quantity) →
      ∃ p : Position, calculatePositions l prices = [p] ∧
        p.averageCost =
          ((l.map fun t => t.price * t.quantity).sum
            + (l.map fun t => t.commission.getD 0).sum)
          / (l.map Trade.quantity).sum := by
  intro l prices code hne hall
  have hperm : (sortTrades l).Perm l := List.perm_insertionSort tradeLE l
  have hall' : ∀ t ∈ sortTrades l, t.type = TradeType.buy ∧ t.stockCode = code
      ∧ 0 < t.price ∧ 0 < t.quantity := fun t ht => hall t (hperm.mem_iff.mp ht)
  have hne' : sortTrades l ≠ [] := by
    intro hnil
    apply hne
    have := hperm.length_eq
    rw [hnil] at this
    exact List.length_eq_zero.mp this.symm
  obtain ⟨t0, rest, hcons⟩ := List.exists_cons_of_ne_nil hne'
  have ht0 : t0 ∈ sortTrades l := by rw [hcons]; exact List.mem_cons_self _ _
  obtain ⟨hbuy0, hcode0, _, _⟩ := hall' t0 ht0
  have hrest : ∀ u ∈ rest, u.type = TradeType.buy ∧ u.stockCode = code := by
    intro u hu
    have : u ∈ sortTrades l := by rw [hcons]; exact List.mem_cons_of_mem _ hu
    exact ⟨(hall' u this).1, (hall' u this).2.1⟩
  have happ0 : applyTrade [] t0 =
      [(code, { stockCode := code, stockName := t0.stockName
                totalQuantity := 0 + t0.quantity
                totalCost := 0 + t0.price * t0.quantity + t0.commission.getD 0 })] := by
    simp [applyTrade, hcode0, hbuy0, mapGet, mapSet]
  obtain ⟨nm, hnm⟩ := buyFold_singleton code rest
    { stockCode := code, stockName := t0.stockName
      totalQuantity := 0 + t0.quantity
      totalCost := 0 + t0.price * t0.quantity + t0.commission.getD 0 } hrest
  have hfold : (sortTrades l).foldl applyTrade [] =
      [(code, { stockCode := code, stockName := nm
                totalQuantity := 0 + t0.quantity + (rest.map Trade.quantity).sum
                totalCost := 0 + t0.price * t0.quantity + t0.commission.getD 0
                  + (rest.map fun t => t.price * t.quantity + t.commission.getD 0).sum })] := by
    rw [hcons, List.foldl_cons, happ0, hnm]
  have hqsum : 0 + t0.quantity + (rest.map Trade.quantity).sum
      = ((sortTrades l).map Trade.quantity).sum := by
    rw [hcons]; simp
  have hcsum : 0 + t0.price * t0.quantity + t0.commission.getD 0
      + (rest.map fun t => t.price * t.quantity + t.commission.getD 0).sum
      = ((sortTrades l).map fun t => t.price * t.quantity + t.commission.getD 0).sum := by
    rw [hcons]; simp [add_assoc]
  have hqpos : 0 < ((sortTrades l).map Trade.quantity).sum := by
    refine List.sum_pos _ (fun x hx => ?_) ?_
    · rcases List.mem_map.mp hx with ⟨u, hu, rfl⟩
      exact (hall' u hu).2.2.2
    · simpa using hne'
  refine ⟨mkPosition prices (code,
    { stockCode := code, stockName := nm
      totalQuantity := 0 + t0.quantity + (rest.map Trade.quantity).sum
      totalCost := 0 + t0.price * t0.quantity + t0.commission.getD 0
        + (rest.map fun t => t.price * t.quantity + t.commission.getD 0).sum }), ?_, ?_⟩
  · rw [calculatePositions, hfold]
    rw [List.filter_cons]
    have : decide (0 < (0 + t0.quantity + (rest.map Trade.quantity).sum)) = true := by
      rw [decide_eq_true_eq, hqsum]
      exact hqpos
    simp only [this]
    simp
  · rw [(mkPosition_proj prices _).2.2.2.1]
    simp only [hqsum, hcsum]
    rw [if_pos hqpos]
    have hq' : ((sortTrades l).map Trade.quantity).sum = (l.map Trade.quantity).sum :=
      (hperm.map _).sum_eq
    have hc' : ((sortTrades l).map fun t => t.price * t.quantity + t.commission.getD 0).sum
        = (l.map fun t => t.price * t.quantity + t.commission.getD 0).sum :=
      (hperm.map _).sum_eq
    rw [hq', hc', List.sum_map_add]

/-- C6 witness: two buys of the same instrument, 100 units at 10 with
commission 5 and 100 units at 20 with commission 15, give average cost
(1000 + 2000 + 5 + 15) / 200 = 15.1. -/
theorem C6_buy_only_average_cost_witness :
    ∃ p : Position, calculatePositions
      [ { id := "1", stockCode := "X", stockName := "X", type := TradeType.buy
          price := 10, quantity := 100, date := 0, commission := some 5, tags := none }
      , { id := "2", stockCode := "X", stockName := "X", type := TradeType.buy
          price := 20, quantity := 100, date := 1, commission := some 15, tags := none } ]
      (fun _ => none) = [p] ∧
      p.averageCost =
        ((([ { id := "1", stockCode := "X", stockName := "X", type := TradeType.buy
               price := 10, quantity := 100, date := 0, commission := some 5, tags := none }
           , { id := "2", stockCode := "X", stockName := "X", type := TradeType.buy
               price := 20, quantity := 100, date := 1, commission := some 15, tags := none } ]
           : List Trade).map fun t => t.price * t.quantity).sum
        + (([ { id := "1", stockCode := "X", stockName := "X", type := TradeType.buy
                price := 10, quantity := 100, date := 0, commission := some 5, tags := none }
            , { id := "2", stockCode := "X", stockName := "X", type := TradeType.buy
                price := 20, quantity := 100, date := 1, commission := some 15, tags := none } ]
            : List Trade).map fun t => t.commission.getD 0).sum)
          / (([ { id := "1", stockCode := "X", stockName := "X", type := TradeType.buy
                  price := 10, quantity := 100, date := 0, commission := some 5, tags := none }
              , { id := "2", stockCode := "X", stockName := "X", type := TradeType.buy
                  price := 20, quantity := 100, date := 1, commission := some 15, tags := none } ]
              : List Trade).map Trade.quantity).sum := by
  refine C6_buy_only_average_cost _ (fun _ => none) "X" ?_ ?_
  · simp
  intro t ht
  simp only [List.mem_cons, List.mem_singleton] at ht
  rcases ht with rfl | rfl | h
  · exact ⟨rfl, rfl, by norm_num, by norm_num⟩
  · exact ⟨rfl, rfl, by norm_num, by norm_num⟩
  · exact absurd h (List.not_mem_nil _)

/-- C10 counterexample: a single buy trade with quantity 0 and commission 5
contributes 5 to the projector's cumulativeCost but is dropped (with its
commission) from the aggregator's output, so the two sums differ. -/
theorem C10_cost_refinement_counterexample :
    ((calculatePositions
      [ { id := "1", stockCode := "X", stockName := "X", type := TradeType.buy
          price := 1, quantity := 0, date := 0, commission := some 5, tags := none } ]
      (fun _ => none)).map Position.totalCost).sum
    ≠ ((analyzeTradeHistory
      [ { id := "1", stockCode := "X", stockName := "X", type := TradeType.buy
          price := 1, quantity := 0, date := 0, commission := some 5, tags := none } ]).map
        AnalysisPoint.cumulativeCost).getLastD 0 := by
  norm_num +decide [calculatePositions, analyzeTradeHistory, sortTrades, List.insertionSort,
    applyTrade, analyzeStep, mapGet, mapSet, List.getLastD]

/-! Alignment of the two per-instrument folds: the positionMap maintained
by calculatePositions and the stockInventory maintained by
analyzeTradeHistory hold the same keys in the same order with the same
quantity and cost. -/

theorem mapGet_aligned {m : List (String × PosAcc)} {inv : List (String × Inventory)}
    (h : AggProjAligned m inv) (k : String) :
    ((mapGet m k).map fun v => (v.totalQuantity, v.totalCost))
      = ((mapGet inv k).map fun v => (v.quantity, v.totalCost)) := by
  induction h with
  | nil => simp [mapGet]
  | cons h1 h2 ih =>
    obtain ⟨hk, hq, hc⟩ := h1
    rename_i a b l1 l2
    by_cases hak : a.1 = k
    · have hbk : b.1 = k := hk ▸ hak
      simp [mapGet, hak, hbk, hq, hc]
    · have hbk : ¬ b.1 = k := hk ▸ hak
      simp [mapGet, hak, hbk, ih]

theorem mapGet_aligned_getD {m : List (String × PosAcc)} {inv : List (String × Inventory)}
    (h : AggProjAligned m inv) (k : String) (d1 : PosAcc) (d2 : Inventory)
    (hdq : d1.totalQuantity = d2.quantity) (hdc : d1.totalCost = d2.totalCost) :
    ((mapGet m k).getD d1).totalQuantity = ((mapGet inv k).getD d2).quantity ∧
    ((mapGet m k).getD d1).totalCost = ((mapGet inv k).getD d2).totalCost := by
  have hget := mapGet_aligned h k
  cases h1 : mapGet m k with
  | none =>
    cases h2 : mapGet inv k with
    | none => simp only [Option.getD_none]; exact ⟨hdq, hdc⟩
    | some w => rw [h1, h2] at hget; simp at hget
  | some v =>
    cases h2 : mapGet inv k with
    | none => rw [h1, h2] at hget; simp at hget
    | some w =>
      rw [h1, h2] at hget
      simp only [Option.map_some', Option.some.injEq, Prod.mk.injEq] at hget
      simp only [Option.getD_some]
      exact hget

theorem mapSet_aligned {m : List (String × PosAcc)} {inv : List (String × Inventory)}
    (h : AggProjAligned m inv) (k : String) (v : PosAcc) (w : Inventory)
    (hvq : v.totalQuantity = w.quantity) (hvc : v.totalCost = w.totalCost) :
    AggProjAligned (mapSet m k v) (mapSet inv k w) := by
  induction h with
  | nil => exact List.Forall₂.cons ⟨rfl, hvq, hvc⟩ List.Forall₂.nil
  | cons h1 h2 ih =>
    rename_i a b l1 l2
    by_cases hak : a.1 = k
    · have hbk : b.1 = k := h1.1 ▸ hak
      simp only [mapSet, if_pos hak, if_pos hbk]
      exact List.Forall₂.cons ⟨rfl, hvq, hvc⟩ h2
    · have hbk : ¬ b.1 = k := h1.1 ▸ hak
      simp only [mapSet, if_neg hak, if_neg hbk]
      exact List.Forall₂.cons h1 ih

theorem step_aligned (m : List (String × PosAcc)) (s : AnalyzeState) (t : Trade)
    (h : AggProjAligned m s.inventory) :
    AggProjAligned (applyTrade m t) (analyzeStep s t).inventory := by
  obtain ⟨hq, hc⟩ := mapGet_aligned_getD h t.stockCode
    { stockCode := t.stockCode, stockName := t.stockName, totalQuantity := 0, totalCost := 0 }
    { quantity := 0, totalCost := 0 } rfl rfl
  simp only [applyTrade, analyzeStep]
  by_cases hb : t.type = TradeType.buy
  · rw [if_pos hb, if_pos hb]
    apply mapSet_aligned h
    · simp only [hq]
    · simp only [hq, hc]
      ring
  · rw [if_neg hb, if_neg hb]
    by_cases hqq : 0 < ((mapGet m t.stockCode).getD
        { stockCode := t.stockCode, stockName := t.stockName
          totalQuantity := 0, totalCost := 0 }).totalQuantity
    · have hqq2 : 0 < ((mapGet s.inventory t.stockCode).getD
          { quantity := 0, totalCost := 0 }).quantity := hq ▸ hqq
      rw [if_pos hqq, if_pos hqq2]
      apply mapSet_aligned h
      · simp only [hq]
      · simp only [hq, hc]
    · have hqq2 : ¬ 0 < ((mapGet s.inventory t.stockCode).getD
          { quantity := 0, totalCost := 0 }).quantity := hq ▸ hqq
      rw [if_neg hqq, if_neg hqq2]
      apply mapSet_aligned h
      · simp only [hq]
      · simp only [hq, hc]

theorem fold_aligned (L : List Trade) :
    ∀ (m : List (String × PosAcc)) (s : AnalyzeState), AggProjAligned m s.inventory →
      AggProjAligned (L.foldl applyTrade m) ((L.foldl analyzeStep s).inventory) := by
  induction L with
  | nil => intro m s h; exact h
  | cons t rest ih =>
    intro m s h
    rw [List.foldl_cons, List.foldl_cons]
    exact ih _ _ (step_aligned m s t h)

theorem mapSet_cost_sum (inv : List (String × Inventory)) (k : String) (w : Inventory) :
    ((mapSet inv k w).map fun e => e.2.totalCost).sum
      = (inv.map fun e => e.2.totalCost).sum + w.totalCost
        - ((mapGet inv k).getD { quantity := 0, totalCost := 0 }).totalCost := by
  induction inv with
  | nil => simp [mapSet, mapGet]
  | cons p rest ih =>
    by_cases hk : p.1 = k
    · simp [mapSet, mapGet, hk]
      ring
    · simp [mapSet, mapGet, hk, ih]
      ring

theorem analyzeStep_cc (s : AnalyzeState) (t : Trade)
    (h : s.cumulativeCost = (s.inventory.map fun e => e.2.totalCost).sum) :
    (analyzeStep s t).cumulativeCost
      = ((analyzeStep s t).inventory.map fun e => e.2.totalCost).sum := by
  simp only [analyzeStep]
  by_cases hb : t.type = TradeType.buy
  · rw [if_pos hb]
    simp only [mapSet_cost_sum]
    rw [h]; ring
  · rw [if_neg hb]
    by_cases hqq : 0 < ((mapGet s.inventory t.stockCode).getD
        { quantity := 0, totalCost := 0 }).quantity
    · rw [if_pos hqq]
      simp only [mapSet_cost_sum]
      rw [h]; ring
    · rw [if_neg hqq]
      simp only [mapSet_cost_sum]
      rw [h]; ring

theorem fold_cc (L : List Trade) :
    ∀ s : AnalyzeState,
      s.cumulativeCost = (s.inventory.map fun e => e.2.totalCost).sum →
      (L.foldl analyzeStep s).cumulativeCost
        = (((L.foldl analyzeStep s).inventory).map fun e => e.2.totalCost).sum := by
  induction L with
  | nil => intro s h; exact h
  | cons t rest ih =>
    intro s h
    rw [List.foldl_cons]
    exact ih _ (analyzeStep_cc s t h)

theorem analyzeFold_last_cc (L : List Trade) :
    ∀ s : AnalyzeState, L ≠ [] →
      (((L.foldl analyzeStep s).points).map AnalysisPoint.cumulativeCost).getLastD 0
        = (L.foldl analyzeStep s).cumulativeCost := by
  induction L with
  | nil => exact fun s h => absurd rfl h
  | cons t rest ih =>
    intro s _
    rw [List.foldl_cons]
    by_cases hr : rest = []
    · subst hr
      simp only [List.foldl_nil]
      rcases analyzeStep_points s t with ⟨pt, hp, _, hcc⟩
      rw [hp, List.map_append, List.map_cons, List.map_nil, List.getLastD_concat]
      exact hcc
    · exact ih (analyzeStep s t) hr

/-! Inventory invariant of the aggregator fold under positive trade
quantities: every positionMap entry keeps a non-negative quantity, and an
entry whose quantity is (at most) zero carries zero cost. -/

theorem applyTrade_inv_entries (m : List (String × PosAcc)) (t : Trade) (hqt : 0 < t.quantity)
    (hm : ∀ e ∈ m, 0 ≤ e.2.totalQuantity ∧ (e.2.totalQuantity ≤ 0 → e.2.totalCost = 0)) :
    ∀ e ∈ applyTrade m t,
      0 ≤ e.2.totalQuantity ∧ (e.2.totalQuantity ≤ 0 → e.2.totalCost = 0) := by
  intro e he
  have hex : 0 ≤ ((mapGet m t.stockCode).getD
      { stockCode := t.stockCode, stockName := t.stockName
        totalQuantity := 0, totalCost := 0 }).totalQuantity ∧
      (((mapGet m t.stockCode).getD
        { stockCode := t.stockCode, stockName := t.stockName
          totalQuantity := 0, totalCost := 0 }).totalQuantity ≤ 0 →
       ((mapGet m t.stockCode).getD
        { stockCode := t.stockCode, stockName := t.stockName
          totalQuantity := 0, totalCost := 0 }).totalCost = 0) := by
    cases hg : mapGet m t.stockCode with
    | none => exact ⟨le_refl 0, fun _ => rfl⟩
    | some v =>
      rcases mapGet_eq_some_mem m t.stockCode v hg with ⟨q, hq, hv⟩
      simpa [hv] using hm q hq
  simp only [applyTrade] at he
  rcases mem_mapSet _ _ _ e he with h1 | h1
  case inr => exact hm e h1
  subst h1
  by_cases hb : t.type = TradeType.buy
  · simp only [hb, if_true]
    refine ⟨?_, ?_⟩
    · exact add_nonneg hex.1 hqt.le
    · intro hle
      exact absurd hle (not_le.mpr (add_pos_of_nonneg_of_pos hex.1 hqt))
  · simp only [hb, if_false]
    by_cases hqq : 0 < ((mapGet m t.stockCode).getD
        { stockCode := t.stockCode, stockName := t.stockName
          totalQuantity := 0, totalCost := 0 }).totalQuantity
    · simp only [hqq, if_true]
      refine ⟨sub_nonneg.mpr (min_le_right _ _), fun hle => ?_⟩
      have hmin : min t.quantity ((mapGet m t.stockCode).getD
          { stockCode := t.stockCode, stockName := t.stockName
            totalQuantity := 0, totalCost := 0 }).totalQuantity
          = ((mapGet m t.stockCode).getD
          { stockCode := t.stockCode, stockName := t.stockName
            totalQuantity := 0, totalCost := 0 }).totalQuantity := by
        refine le_antisymm (min_le_right _ _) ?_
        have h1 : (0:ℚ) ≤ ((mapGet m t.stockCode).getD
            { stockCode := t.stockCode, stockName := t.stockName
              totalQuantity := 0, totalCost := 0 }).totalQuantity
            - min t.quantity ((mapGet m t.stockCode).getD
            { stockCode := t.stockCode, stockName := t.stockName
              totalQuantity := 0, totalCost := 0 }).totalQuantity :=
          sub_nonneg.mpr (min_le_right _ _)
        have h2 := le_antisymm hle h1
        linarith [h2]
      rw [hmin, div_mul_cancel₀ _ (ne_of_gt hqq), sub_self]
    · simp only [hqq, if_false]
      exact hex

theorem fold_inv_entries (L : List Trade) :
    (∀ t ∈ L, 0 < t.quantity) →
    ∀ m : List (String × PosAcc),
      (∀ e ∈ m, 0 ≤ e.2.totalQuantity ∧ (e.2.totalQuantity ≤ 0 → e.2.totalCost = 0)) →
      ∀ e ∈ L.foldl applyTrade m,
        0 ≤ e.2.totalQuantity ∧ (e.2.totalQuantity ≤ 0 → e.2.totalCost = 0) := by
  induction L with
  | nil => intro _ m hm; exact hm
  | cons t rest ih =>
    intro hq m hm
    rw [List.foldl_cons]
    exact ih (fun u hu => hq u (List.mem_cons_of_mem _ hu)) _
      (applyTrade_inv_entries m t (hq t (List.mem_cons_self _ _)) hm)

theorem filter_cost_sum (M : List (String × PosAcc))
    (h : ∀ e ∈ M, ¬ 0 < e.2.totalQuantity → e.2.totalCost = 0) :
    ((M.filter fun e => decide (0 < e.2.totalQuantity)).map fun e => e.2.totalCost).sum
      = (M.map fun e => e.2.totalCost).sum := by
  induction M with
  | nil => rfl
  | cons p rest ih =>
    have hrest : ∀ e ∈ rest, ¬ 0 < e.2.totalQuantity → e.2.totalCost = 0 :=
      fun e he => h e (List.mem_cons_of_mem _ he)
    by_cases hp : 0 < p.2.totalQuantity
    · simp [List.filter_cons, hp, ih hrest]
    · simp [List.filter_cons, hp, ih hrest, h p (List.mem_cons_self _ _) hp]

theorem aligned_cost_sum {m : List (String × PosAcc)} {inv : List (String × Inventory)}
    (h : AggProjAligned m inv) :
    (m.map fun e => e.2.totalCost).sum = (inv.map fun e => e.2.totalCost).sum := by
  induction h with
  | nil => rfl
  | cons h1 h2 ih => simp only [List.map_cons, List.sum_cons, h1.2.2, ih]

/-- C10 (amended): for every trade sequence in which every trade has
positive quantity, and every price map, the sum of totalCost over the
positions returned by calculatePositions equals the cumulativeCost of
the last point returned by analyzeTradeHistory (0 for the empty
sequence): the aggregator and the projector implement the same
per-instrument accumulator fold.  (For a degenerate trade of quantity 0
with a commission the two differ, see the counterexample.) -/
theorem C10_cost_refinement :
    ∀ (trades : List Trade) (prices : String → Option ℚ),
      (∀ t ∈ trades, 0 < t.quantity) →
      ((calculatePositions trades prices).map Position.totalCost).sum
        = ((analyzeTradeHistory trades).map AnalysisPoint.cumulativeCost).getLastD 0 := by
  intro trades prices hqt
  have hperm : (sortTrades trades).Perm trades := List.perm_insertionSort tradeLE trades
  have hqt' : ∀ t ∈ sortTrades trades, 0 < t.quantity :=
    fun t ht => hqt t (hperm.mem_iff.mp ht)
  simp only [calculatePositions, analyzeTradeHistory]
  by_cases hnil : sortTrades trades = []
  · rw [hnil]
    simp
  · have halign : AggProjAligned ((sortTrades trades).foldl applyTrade [])
        (((sortTrades trades).foldl analyzeStep
          { points := [], cumulativeCost := 0, inventory := [] }).inventory) :=
      fold_aligned _ [] _ List.Forall₂.nil
    have hcc : ((sortTrades trades).foldl analyzeStep
          { points := [], cumulativeCost := 0, inventory := [] }).cumulativeCost
        = ((((sortTrades trades).foldl analyzeStep
          { points := [], cumulativeCost := 0, inventory := [] }).inventory).map
            fun e => e.2.totalCost).sum :=
      fold_cc _ _ (by simp)
    have hlast : ((((sortTrades trades).foldl analyzeStep
          { points := [], cumulativeCost := 0, inventory := [] }).points).map
            AnalysisPoint.cumulativeCost).getLastD 0
        = ((sortTrades trades).foldl analyzeStep
          { points := [], cumulativeCost := 0, inventory := [] }).cumulativeCost :=
      analyzeFold_last_cc _ _ hnil
    have hinv : ∀ e ∈ (sortTrades trades).foldl applyTrade [],
        0 ≤ e.2.totalQuantity ∧ (e.2.totalQuantity ≤ 0 → e.2.totalCost = 0) :=
      fold_inv_entries _ hqt' [] (by simp)
    rw [List.map_map]
    have hmapeq : ((((sortTrades trades).foldl applyTrade []).filter
          fun e => decide (0 < e.2.totalQuantity)).map
            (Position.totalCost ∘ mkPosition prices)).sum
        = ((((sortTrades trades).foldl applyTrade []).filter
          fun e => decide (0 < e.2.totalQuantity)).map fun e => e.2.totalCost).sum := by
      congr 1
      apply List.map_congr_left
      intro e _
      exact (mkPosition_proj prices e).2.2.1
    rw [hmapeq,
      filter_cost_sum _ (fun e he hn => (hinv e he).2 (not_lt.mp hn)),
      aligned_cost_sum halign, ← hcc, hlast]

/-- C10 witness: instantiation on the buy-then-sell example; both sides
equal the remaining cost basis 502.5. -/
theorem C10_cost_refinement_witness :
    ((calculatePositions
      [ { id := "1", stockCode := "X", stockName := "X", type := TradeType.buy
          price := 10, quantity := 100, date := 0, commission := some 5, tags := none }
      , { id := "2", stockCode := "X", stockName := "X", type := TradeType.sell
          price := 12, quantity := 50, date := 1, commission := some 2, tags := none } ]
      (fun _ => none)).map Position.totalCost).sum
    = ((analyzeTradeHistory
      [ { id := "1", stockCode := "X", stockName := "X", type := TradeType.buy
          price := 10, quantity := 100, date := 0, commission := some 5, tags := none }
      , { id := "2", stockCode := "X", stockName := "X", type := TradeType.sell
          price := 12, quantity := 50, date := 1, commission := some 2, tags := none } ]).map
        AnalysisPoint.cumulativeCost).getLastD 0 := by
  refine C10_cost_refinement _ (fun _ => none) ?_
  intro t ht
  simp only [List.mem_cons, List.mem_singleton] at ht
  rcases ht with rfl | rfl | h
  · norm_num
  · norm_num
  · exact absurd h (List.not_mem_nil _)

/-! Stable-sort analysis for C8: inserting into sorted lists that differ
only by an adjacent transposition of two equal-timestamp trades preserves
that shape, so the two sorted outputs differ exactly by that adjacent
transposition. -/

theorem applyTrade_eq (m : List (String × PosAcc)) (t : Trade) :
    applyTrade m t = mapSet m t.stockCode
      (applyVal ((mapGet m t.stockCode).getD
        { stockCode := t.stockCode, stockName := t.stockName
          totalQuantity := 0, totalCost := 0 }) t) := rfl

theorem orderedInsert_comm_of_eq_date (a b : Trade) (hd : a.date = b.date) :
    ∀ L : List Trade,
      ∃ u v, List.orderedInsert tradeLE a (List.orderedInsert tradeLE b L)
              = u ++ a :: b :: v ∧
             List.orderedInsert tradeLE b (List.orderedInsert tradeLE a L)
              = u ++ b :: a :: v := by
  have hab : tradeLE a b := by unfold tradeLE; rw [hd]
  have hba : tradeLE b a := by unfold tradeLE; rw [hd]
  intro L
  induction L with
  | nil =>
    refine ⟨[], [], ?_, ?_⟩
    · simp [List.orderedInsert, hab]
    · simp [List.orderedInsert, hba]
  | cons c L ih =>
    by_cases hbc : tradeLE b c
    · have hac : tradeLE a c := by unfold tradeLE at *; rw [hd]; exact hbc
      refine ⟨[], c :: L, ?_, ?_⟩
      · simp [List.orderedInsert, hbc, hac, hab]
      · simp [List.orderedInsert, hbc, hac, hba]
    · have hac : ¬ tradeLE a c := by unfold tradeLE at *; rw [hd]; exact hbc
      rcases ih with ⟨u, v, h1, h2⟩
      refine ⟨c :: u, v, ?_, ?_⟩
      · simp [List.orderedInsert, hbc, hac, h1]
      · simp [List.orderedInsert, hbc, hac, h2]

theorem orderedInsert_adjswap (c a b : Trade) (hd : a.date = b.date) :
    ∀ (u v : List Trade),
      ∃ u2 v2, List.orderedInsert tradeLE c (u ++ a :: b :: v) = u2 ++ a :: b :: v2 ∧
               List.orderedInsert tradeLE c (u ++ b :: a :: v) = u2 ++ b :: a :: v2 := by
  intro u
  induction u with
  | nil =>
    intro v
    by_cases hca : tradeLE c a
    · have hcb : tradeLE c b := by unfold tradeLE at *; rw [← hd]; exact hca
      refine ⟨[c], v, ?_, ?_⟩
      · simp [List.orderedInsert, hca]
      · simp [List.orderedInsert, hcb]
    · have hcb : ¬ tradeLE c b := by unfold tradeLE at *; rw [← hd]; exact hca
      refine ⟨[], List.orderedInsert tradeLE c v, ?_, ?_⟩
      · simp [List.orderedInsert, hca, hcb]
      · simp [List.orderedInsert, hca, hcb]
  | cons d u ih =>
    intro v
    rcases ih v with ⟨u2, v2, h1, h2⟩
    by_cases hcd : tradeLE c d
    · refine ⟨c :: d :: u, v, ?_, ?_⟩
      · simp [List.orderedInsert, hcd]
      · simp [List.orderedInsert, hcd]
    · refine ⟨d :: u2, v2, ?_, ?_⟩
      · simp [List.orderedInsert, hcd, h1]
      · simp [List.orderedInsert, hcd, h2]

theorem insertionSort_adjswap (a b : Trade) (hd : a.date = b.date) :
    ∀ (l1 l2 : List Trade),
      ∃ u v, sortTrades (l1 ++ a :: b :: l2) = u ++ a :: b :: v ∧
             sortTrades (l1 ++ b :: a :: l2) = u ++ b :: a :: v := by
  intro l1
  induction l1 with
  | nil =>
    intro l2
    simpa [sortTrades, List.insertionSort] using
      orderedInsert_comm_of_eq_date a b hd (List.insertionSort tradeLE l2)
  | cons d l1 ih =>
    intro l2
    rcases ih l2 with ⟨u, v, h1, h2⟩
    simp only [sortTrades] at h1 h2
    rcases orderedInsert_adjswap d a b hd u v with ⟨u2, v2, g1, g2⟩
    refine ⟨u2, v2, ?_, ?_⟩
    · simp only [sortTrades, List.cons_append, List.insertionSort, List.append_eq]
      rw [h1]
      exact g1
    · simp only [sortTrades, List.cons_append, List.insertionSort, List.append_eq]
      rw [h2]
      exact g2

/-! Value-level characterization of the accumulator update and its
commutation on the quantity and cost fields. -/

theorem applyVal_q (x : PosAcc) (t : Trade) :
    (applyVal x t).totalQuantity =
      if t.type = TradeType.buy then x.totalQuantity + t.quantity
      else if 0 < x.totalQuantity then x.totalQuantity - min t.quantity x.totalQuantity
      else x.totalQuantity := by
  by_cases hb : t.type = TradeType.buy
  · simp [applyVal, hb]
  · by_cases hq : 0 < x.totalQuantity
    · simp [applyVal, hb, hq]
    · simp [applyVal, hb, hq]

theorem applyVal_c (x : PosAcc) (t : Trade) :
    (applyVal x t).totalCost =
      if t.type = TradeType.buy then
        x.totalCost + t.price * t.quantity + t.commission.getD 0
      else if 0 < x.totalQuantity then
        x.totalCost - x.totalCost / x.totalQuantity * min t.quantity x.totalQuantity
      else x.totalCost := by
  by_cases hb : t.type = TradeType.buy
  · simp [applyVal, hb]
  · by_cases hq : 0 < x.totalQuantity
    · simp [applyVal, hb, hq]
    · simp [applyVal, hb, hq]

theorem applyVal_qc_congr (x y : PosAcc) (t : Trade)
    (hq : x.totalQuantity = y.totalQuantity) (hc : x.totalCost = y.totalCost) :
    (applyVal x t).totalQuantity = (applyVal y t).totalQuantity ∧
    (applyVal x t).totalCost = (applyVal y t).totalCost := by
  rw [applyVal_q, applyVal_q, applyVal_c, applyVal_c, hq, hc]
  exact ⟨rfl, rfl⟩

theorem sell_q_twice (q ta tb : ℚ) (_hq : 0 < q) (_hta : 0 ≤ ta) (htb : 0 ≤ tb) :
    (if 0 < q - min ta q then (q - min ta q) - min tb (q - min ta q) else q - min ta q)
      = max (q - (ta + tb)) 0 := by
  rcases lt_or_le ta q with h1 | h1
  · rw [min_eq_left h1.le, if_pos (show (0:ℚ) < q - ta by linarith)]
    rcases lt_or_le tb (q - ta) with h2 | h2
    · rw [min_eq_left h2.le, max_eq_left (show (0:ℚ) ≤ q - (ta + tb) by linarith)]
      ring
    · rw [min_eq_right h2, max_eq_right (show q - (ta + tb) ≤ (0:ℚ) by linarith)]
      ring
  · rw [min_eq_right h1, if_neg (by simp), max_eq_right
      (show q - (ta + tb) ≤ (0:ℚ) by linarith)]
    ring

theorem sell_c_twice (q c ta tb : ℚ) (hq : 0 < q) (_hta : 0 ≤ ta) (htb : 0 ≤ tb) :
    (if 0 < q - min ta q then
       (c - c / q * min ta q) - (c - c / q * min ta q) / (q - min ta q)
         * min tb (q - min ta q)
     else c - c / q * min ta q)
      = c - c / q * min (ta + tb) q := by
  have hqne : q ≠ 0 := ne_of_gt hq
  rcases lt_or_le ta q with h1 | h1
  · rw [min_eq_left h1.le, if_pos (show (0:ℚ) < q - ta by linarith)]
    have hq1ne : q - ta ≠ 0 := ne_of_gt (by linarith)
    have hc1 : (c - c / q * ta) / (q - ta) = c / q := by
      field_simp
      ring
    rw [hc1]
    rcases lt_or_le tb (q - ta) with h2 | h2
    · rw [min_eq_left h2.le, min_eq_left (show ta + tb ≤ q by linarith)]
      ring
    · rw [min_eq_right h2, min_eq_right (show q ≤ ta + tb by linarith)]
      ring
  · rw [min_eq_right h1, if_neg (by simp),
      min_eq_right (show q ≤ ta + tb by linarith)]

/-! MapEquiv machinery: the fold of calculatePositions respects equality
of position maps up to the display-only stockName field. -/

theorem MapEquiv_refl (m : List (String × PosAcc)) : MapEquiv m m := by
  induction m with
  | nil => exact List.Forall₂.nil
  | cons p rest ih => exact List.Forall₂.cons ⟨rfl, rfl, rfl⟩ ih

theorem mapGet_equiv {m1 m2 : List (String × PosAcc)} (h : MapEquiv m1 m2) (k : String) :
    ((mapGet m1 k).map fun v => (v.totalQuantity, v.totalCost))
      = ((mapGet m2 k).map fun v => (v.totalQuantity, v.totalCost)) := by
  induction h with
  | nil => simp [mapGet]
  | cons h1 h2 ih =>
    obtain ⟨hk, hq, hc⟩ := h1
    rename_i a b l1 l2
    by_cases hak : a.1 = k
    · have hbk : b.1 = k := hk ▸ hak
      simp [mapGet, hak, hbk, hq, hc]
    · have hbk : ¬ b.1 = k := hk ▸ hak
      simp [mapGet, hak, hbk, ih]

theorem mapGet_equiv_getD {m1 m2 : List (String × PosAcc)} (h : MapEquiv m1 m2)
    (k : String) (d1 d2 : PosAcc)
    (hdq : d1.totalQuantity = d2.totalQuantity) (hdc : d1.totalCost = d2.totalCost) :
    ((mapGet m1 k).getD d1).totalQuantity = ((mapGet m2 k).getD d2).totalQuantity ∧
    ((mapGet m1 k).getD d1).totalCost = ((mapGet m2 k).getD d2).totalCost := by
  have hget := mapGet_equiv h k
  cases h1 : mapGet m1 k with
  | none =>
    cases h2 : mapGet m2 k with
    | none => simp only [Option.getD_none]; exact ⟨hdq, hdc⟩
    | some w => rw [h1, h2] at hget; simp at hget
  | some v =>
    cases h2 : mapGet m2 k with
    | none => rw [h1, h2] at hget; simp at hget
    | some w =>
      rw [h1, h2] at hget
      simp only [Option.map_some', Option.some.injEq, Prod.mk.injEq] at hget
      simp only [Option.getD_some]
      exact hget

theorem mapSet_equiv {m1 m2 : List (String × PosAcc)} (h : MapEquiv m1 m2)
    (k : String) (v1 v2 : PosAcc)
    (hvq : v1.totalQuantity = v2.totalQuantity) (hvc : v1.totalCost = v2.totalCost) :
    MapEquiv (mapSet m1 k v1) (mapSet m2 k v2) := by
  induction h with
  | nil => exact List.Forall₂.cons ⟨rfl, hvq, hvc⟩ List.Forall₂.nil
  | cons h1 h2 ih =>
    rename_i a b l1 l2
    by_cases hak : a.1 = k
    · have hbk : b.1 = k := h1.1 ▸ hak
      simp only [mapSet, if_pos hak, if_pos hbk]
      exact List.Forall₂.cons ⟨rfl, hvq, hvc⟩ h2
    · have hbk : ¬ b.1 = k := h1.1 ▸ hak
      simp only [mapSet, if_neg hak, if_neg hbk]
      exact List.Forall₂.cons h1 ih

theorem applyTrade_equiv {m1 m2 : List (String × PosAcc)} (h : MapEquiv m1 m2) (t : Trade) :
    MapEquiv (applyTrade m1 t) (applyTrade m2 t) := by
  obtain ⟨hq, hc⟩ := mapGet_equiv_getD h t.stockCode
    { stockCode := t.stockCode, stockName := t.stockName, totalQuantity := 0, totalCost := 0 }
    { stockCode := t.stockCode, stockName := t.stockName, totalQuantity := 0, totalCost := 0 }
    rfl rfl
  rw [applyTrade_eq, applyTrade_eq]
  obtain ⟨huq, huc⟩ := applyVal_qc_congr _ _ t hq hc
  exact mapSet_equiv h t.stockCode _ _ huq huc

theorem foldl_applyTrade_equiv (L : List Trade) :
    ∀ {m1 m2 : List (String × PosAcc)}, MapEquiv m1 m2 →
      MapEquiv (L.foldl applyTrade m1) (L.foldl applyTrade m2) := by
  induction L with
  | nil => intro m1 m2 h; exact h
  | cons t rest ih =>
    intro m1 m2 h
    rw [List.foldl_cons, List.foldl_cons]
    exact ih (applyTrade_equiv h t)

theorem applyVal_comm (x y : PosAcc) (a b : Trade)
    (hxq : x.totalQuantity = y.totalQuantity) (hxc : x.totalCost = y.totalCost)
    (hkind : a.type = b.type) (hqa : 0 ≤ a.quantity) (hqb : 0 ≤ b.quantity) :
    (applyVal (applyVal x a) b).totalQuantity = (applyVal (applyVal y b) a).totalQuantity ∧
    (applyVal (applyVal x a) b).totalCost = (applyVal (applyVal y b) a).totalCost := by
  cases htype : a.type with
  | buy =>
    have hbb : b.type = TradeType.buy := hkind ▸ htype
    constructor
    · simp only [applyVal_q, htype, hbb, if_true]
      rw [hxq]
      ring
    · simp only [applyVal_c, applyVal_q, htype, hbb, if_true]
      rw [hxc]
      ring
  | sell =>
    have hbs : b.type = TradeType.sell := hkind ▸ htype
    have hnba : ¬ a.type = TradeType.buy := by simp [htype]
    have hnbb : ¬ b.type = TradeType.buy := by simp [hbs]
    by_cases hx : 0 < x.totalQuantity
    · have hy : 0 < y.totalQuantity := hxq ▸ hx
      constructor
      · simp only [applyVal_q, hnba, hnbb, if_false, if_pos hx, if_pos hy]
        rw [sell_q_twice _ _ _ hx hqa hqb, sell_q_twice _ _ _ hy hqb hqa, hxq,
          add_comm b.quantity a.quantity]
      · simp only [applyVal_c, applyVal_q, hnba, hnbb, if_false, if_pos hx, if_pos hy]
        rw [sell_c_twice _ _ _ _ hx hqa hqb, sell_c_twice _ _ _ _ hy hqb hqa, hxq, hxc,
          add_comm b.quantity a.quantity]
    · have hy : ¬ 0 < y.totalQuantity := hxq ▸ hx
      constructor
      · simp only [applyVal_q, hnba, hnbb, if_false, if_neg hx, if_neg hy]
        exact hxq
      · simp only [applyVal_c, applyVal_q, hnba, hnbb, if_false, if_neg hx, if_neg hy]
        exact hxc

theorem applyTrade_comm (m : List (String × PosAcc)) (a b : Trade)
    (hcode : a.stockCode = b.stockCode) (hkind : a.type = b.type)
    (hqa : 0 ≤ a.quantity) (hqb : 0 ≤ b.quantity) :
    MapEquiv (applyTrade (applyTrade m a) b) (applyTrade (applyTrade m b) a) := by
  have hk : b.stockCode = a.stockCode := hcode.symm
  rw [applyTrade_eq m a, applyTrade_eq _ b, applyTrade_eq m b, applyTrade_eq _ a, hk,
    mapGet_mapSet_self, mapGet_mapSet_self, mapSet_mapSet, mapSet_mapSet]
  simp only [Option.getD_some]
  have hd : ((mapGet m a.stockCode).getD
      { stockCode := a.stockCode, stockName := a.stockName
        totalQuantity := 0, totalCost := 0 }).totalQuantity
      = ((mapGet m a.stockCode).getD
      { stockCode := a.stockCode, stockName := b.stockName
        totalQuantity := 0, totalCost := 0 }).totalQuantity ∧
      ((mapGet m a.stockCode).getD
      { stockCode := a.stockCode, stockName := a.stockName
        totalQuantity := 0, totalCost := 0 }).totalCost
      = ((mapGet m a.stockCode).getD
      { stockCode := a.stockCode, stockName := b.stockName
        totalQuantity := 0, totalCost := 0 }).totalCost := by
    cases hg : mapGet m a.stockCode <;> simp
  obtain ⟨hw1, hw2⟩ := applyVal_comm _ _ a b hd.1 hd.2 hkind hqa hqb
  exact mapSet_equiv (MapEquiv_refl m) _ _ _ hw1 hw2

theorem mapEquiv_positions {m1 m2 : List (String × PosAcc)} (h : MapEquiv m1 m2)
    (prices : String → Option ℚ) :
    (((m1.filter fun e => decide (0 < e.2.totalQuantity)).map (mkPosition prices)).map
        fun p => (p.stockCode, p.totalQuantity, p.totalCost))
      = (((m2.filter fun e => decide (0 < e.2.totalQuantity)).map (mkPosition prices)).map
        fun p => (p.stockCode, p.totalQuantity, p.totalCost)) := by
  induction h with
  | nil => rfl
  | cons h1 h2 ih =>
    obtain ⟨hk, hq, hc⟩ := h1
    rename_i a b l1 l2
    rw [List.filter_cons, List.filter_cons]
    by_cases hp : 0 < a.2.totalQuantity
    · have hp2 : 0 < b.2.totalQuantity := hq ▸ hp
      rw [if_pos (by simpa using hp), if_pos (by simpa using hp2)]
      rw [List.map_cons, List.map_cons, List.map_cons, List.map_cons]
      rw [ih]
      congr 1
      obtain ⟨ha1, ha2, ha3, -, -⟩ := mkPosition_proj prices a
      obtain ⟨hb1, hb2, hb3, -, -⟩ := mkPosition_proj prices b
      rw [ha1, ha2, ha3, hb1, hb2, hb3, hk, hq, hc]
    · have hp2 : ¬ 0 < b.2.totalQuantity := hq ▸ hp
      rw [if_neg (by simpa using hp), if_neg (by simpa using hp2)]
      exact ih

/-- C8 counterexample: with a held quantity of 1, swapping two adjacent
same-timestamp same-instrument sells of quantities 2 and −5 changes the
final position set (the claim quantifies over every trade sequence, and
a negative-quantity sell breaks the commutation). -/
theorem C8_tie_swap_counterexample :
    ((calculatePositions
      [ { id := "0", stockCode := "X", stockName := "X", type := TradeType.buy
          price := 1, quantity := 1, date := 0, commission := none, tags := none }
      , { id := "1", stockCode := "X", stockName := "X", type := TradeType.sell
          price := 1, quantity := 2, date := 1, commission := none, tags := none }
      , { id := "2", stockCode := "X", stockName := "X", type := TradeType.sell
          price := 1, quantity := -5, date := 1, commission := none, tags := none } ]
      (fun _ => none)).map fun p => (p.stockCode, p.totalQuantity, p.totalCost))
    ≠ ((calculatePositions
      [ { id := "0", stockCode := "X", stockName := "X", type := TradeType.buy
          price := 1, quantity := 1, date := 0, commission := none, tags := none }
      , { id := "2", stockCode := "X", stockName := "X", type := TradeType.sell
          price := 1, quantity := -5, date := 1, commission := none, tags := none }
      , { id := "1", stockCode := "X", stockName := "X", type := TradeType.sell
          price := 1, quantity := 2, date := 1, commission := none, tags := none } ]
      (fun _ => none)).map fun p => (p.stockCode, p.totalQuantity, p.totalCost)) := by
  norm_num +decide [calculatePositions, sortTrades, List.insertionSort, List.orderedInsert,
    tradeLE, applyTrade, mapGet, mapSet, mkPosition, min_def]

/-- C8 (amended): swapping two adjacent trades that share an identical
timestamp, the same instrument code, and the same kind (both buys or
both sells), both with non-negative quantity (the data model requires
positive quantities), leaves the stockCode, totalQuantity and totalCost
of every position returned by calculatePositions unchanged. -/
theorem C8_tie_swap_invariant :
    ∀ (l1 l2 : List Trade) (a b : Trade) (prices : String → Option ℚ),
      a.date = b.date → a.stockCode = b.stockCode → a.type = b.type →
      0 ≤ a.quantity → 0 ≤ b.quantity →
      ((calculatePositions (l1 ++ a :: b :: l2) prices).map
          fun p => (p.stockCode, p.totalQuantity, p.totalCost))
        = ((calculatePositions (l1 ++ b :: a :: l2) prices).map
          fun p => (p.stockCode, p.totalQuantity, p.totalCost)) := by
  intro l1 l2 a b prices hd hcode hkind hqa hqb
  obtain ⟨u, v, h1, h2⟩ := insertionSort_adjswap a b hd l1 l2
  simp only [calculatePositions]
  rw [h1, h2, List.foldl_append, List.foldl_append,
    List.foldl_cons, List.foldl_cons, List.foldl_cons, List.foldl_cons]
  exact mapEquiv_positions
    (foldl_applyTrade_equiv v (applyTrade_comm _ a b hcode hkind hqa hqb)) prices

/-- C8 witness: instantiation on two same-timestamp sells of quantities
30 and 40 against a prior buy of 100. -/
theorem C8_tie_swap_invariant_witness :
    ((calculatePositions
      ([ { id := "0", stockCode := "X", stockName := "X", type := TradeType.buy
           price := 10, quantity := 100, date := 0, commission := some 5, tags := none } ]
        ++ { id := "1", stockCode := "X", stockName := "X", type := TradeType.sell
             price := 12, quantity := 30, date := 1, commission := none, tags := none }
        :: { id := "2", stockCode := "X", stockName := "X", type := TradeType.sell
             price := 11, quantity := 40, date := 1, commission := none, tags := none }
        :: []) (fun _ => none)).map fun p => (p.stockCode, p.totalQuantity, p.totalCost))
    = ((calculatePositions
      ([ { id := "0", stockCode := "X", stockName := "X", type := TradeType.buy
           price := 10, quantity := 100, date := 0, commission := some 5, tags := none } ]
        ++ { id := "2", stockCode := "X", stockName := "X", type := TradeType.sell
             price := 11, quantity := 40, date := 1, commission := none, tags := none }
        :: { id := "1", stockCode := "X", stockName := "X", type := TradeType.sell
             price := 12, quantity := 30, date := 1, commission := none, tags := none }
        :: []) (fun _ => none)).map fun p => (p.stockCode, p.totalQuantity, p.totalCost)) :=
  C8_tie_swap_invariant _ _ _ _ (fun _ => none) rfl rfl rfl (by norm_num) (by norm_num)
